import Mathlib

/-!
# Verification of the Curva-A Mercado Livre scraper (src/curva_a_ml.py)

This file shallowly embeds the pure computational core of the scraper:

* Python string primitives restricted to the operations the source uses
  (`str.upper`, `str.lower`, `str.title`, `str.strip`, substring containment,
  `str.replace`, `float(...)` parsing), modelled on `List Char` / `String`.
  Unicode handling is modelled for ASCII plus the Latin-1 letter block,
  which covers every character appearing in the source's patterns and data.
* A small backtracking regular-expression engine that is just expressive
  enough for the concrete patterns of the source (character-class
  repetitions, literals, alternation, optionality, word boundaries and
  capture groups), with Python `re.search` / `re.finditer` / `re.sub`
  leftmost-greedy semantics.
* The query synthesizer `title_to_user_query`, the price parser
  `parse_preco_texto_to_float`, the per-term price comparison
  `comparar_precos_por_consulta`, the candidate selection/dedup loop, the
  list/detail merge, the final-report sort (pandas multi-key
  `sort_values`, a stable lexicographic sort, modelled as a stable
  insertion sort), the detail-page open loop `open_pdp`, and the
  orchestrator's term/candidate loops with a cooperative cancellation
  flag (modelled as an oracle of flag readings indexed by check count).

Numeric prices are modelled as exact rationals (`ℚ`); every comparison the
source performs on them (minimum, strict less-than, integrality test,
truncation) agrees with the rational semantics on the values involved.
-/

namespace CurvaA

/-! ## Python character and string primitives -/

/-- Decimal digit, as in Python `\d` for ASCII input. -/
def isDigitC (c : Char) : Bool := 48 ≤ c.toNat && c.toNat ≤ 57

/-- ASCII uppercase letter `A`–`Z`. -/
def isUpperAZ (c : Char) : Bool := 65 ≤ c.toNat && c.toNat ≤ 90

/-- ASCII lowercase letter `a`–`z`. -/
def isLowerAZ (c : Char) : Bool := 97 ≤ c.toNat && c.toNat ≤ 122

/-- Latin-1 uppercase letter (`À`–`Þ` without the multiplication sign). -/
def isUpperLatin1 (c : Char) : Bool :=
  192 ≤ c.toNat && c.toNat ≤ 222 && c.toNat ≠ 215

/-- Latin-1 lowercase letter (`à`–`þ` without the division sign). -/
def isLowerLatin1 (c : Char) : Bool :=
  224 ≤ c.toNat && c.toNat ≤ 254 && c.toNat ≠ 247

/-- Letter, for the ASCII + Latin-1 fragment we model. -/
def isAlphaC (c : Char) : Bool :=
  isUpperAZ c || isLowerAZ c || isUpperLatin1 c || isLowerLatin1 c

/-- Python word character (`\w`) on the modelled fragment:
letters, digits and underscore. -/
def isWordChar (c : Char) : Bool := isAlphaC c || isDigitC c || c = '_'

/-- Python whitespace (`str.strip` / `\s`) on the modelled fragment:
ASCII whitespace plus the no-break spaces the source normalizes. -/
def isPySpace (c : Char) : Bool :=
  c = ' ' || c = '\t' || c = '\n' || c = '\r' ||
  c.toNat = 11 || c.toNat = 12 || c.toNat = 160 || c.toNat = 8239

/-- `str.upper` per character (ASCII + Latin-1 letters). -/
def pyUpperC (c : Char) : Char :=
  if isLowerAZ c || isLowerLatin1 c then Char.ofNat (c.toNat - 32) else c

/-- `str.lower` per character (ASCII + Latin-1 letters). -/
def pyLowerC (c : Char) : Char :=
  if isUpperAZ c || isUpperLatin1 c then Char.ofNat (c.toNat + 32) else c

def pyUpper (s : String) : String := String.mk (s.data.map pyUpperC)

def pyLower (s : String) : String := String.mk (s.data.map pyLowerC)

def dropWhileSpace (l : List Char) : List Char := l.dropWhile isPySpace

/-- Python `str.strip()`. -/
def pyStrip (s : String) : String :=
  String.mk ((dropWhileSpace (dropWhileSpace s.data).reverse).reverse)

/-- `str.title()` per Python: the first letter of every letter run is
uppercased, the rest lowercased (digits and punctuation reset the run). -/
def pyTitleAux : Bool → List Char → List Char
  | _, [] => []
  | prevAlpha, c :: rest =>
    if isAlphaC c then
      (if prevAlpha then pyLowerC c else pyUpperC c) :: pyTitleAux true rest
    else
      c :: pyTitleAux false rest

def pyTitle (s : String) : String := String.mk (pyTitleAux false s.data)

/-- Substring containment, Python `needle in hay`. -/
def containsSub (hay needle : List Char) : Bool :=
  match hay with
  | [] => needle = []
  | _ :: t => needle.isPrefixOf hay || containsSub t needle

def pyContains (hay needle : String) : Bool := containsSub hay.data needle.data

/-- Python `str.replace(old, new)` for a non-empty `old`, left-to-right and
non-overlapping. Structural recursion on a fuel counter (one unit per
consumed character) so that the kernel can evaluate it; a fuel of
`hay.length` always suffices. -/
def replaceSub : ℕ → List Char → List Char → List Char → List Char
  | 0, hay, _, _ => hay
  | fuel + 1, hay, old, new =>
    match hay with
    | [] => []
    | c :: t =>
      if old.isPrefixOf (c :: t) && !old.isEmpty then
        new ++ replaceSub fuel ((c :: t).drop old.length) old new
      else
        c :: replaceSub fuel t old new

def pyReplace (s old new : String) : String :=
  String.mk (replaceSub s.data.length s.data old.data new.data)

/-- Decimal string of a natural number (Python `f"{n}"` for `n ≥ 0`). -/
def natStr (n : ℕ) : String := toString n

/-! ## Python `float(...)` parsing (claim C10)

Model of CPython `float(str)` on the fragment relevant to this program:
optional surrounding whitespace, optional sign, and a decimal number
`d+ | d+. | d+.d+ | .d+` with an optional exponent. The model omits
`inf` / `nan` and digit-group underscores, which cannot arise from the
price texts this program feeds to `float`. -/

def digitVal (c : Char) : ℕ := c.toNat - 48

def digitsToNat (l : List Char) : ℕ := l.foldl (fun a c => a * 10 + digitVal c) 0

def spanDigits (l : List Char) : List Char × List Char :=
  (l.takeWhile isDigitC, l.dropWhile isDigitC)

/-- Parse mantissa `d+ | d+. | d+.d+ | .d+` returning the digit value and
the number of fractional digits. -/
def parseMantissa (l : List Char) : Option (ℕ × ℕ × List Char) :=
  let (ip, r1) := spanDigits l
  match r1 with
  | '.' :: r2 =>
    let (fp, r3) := spanDigits r2
    if ip = [] && fp = [] then none
    else some (digitsToNat (ip ++ fp), fp.length, r3)
  | _ =>
    if ip = [] then none else some (digitsToNat ip, 0, r1)

/-- Exact value of a parsed decimal `±mant · 10^(e - fracLen)`, constructed
with integer arithmetic and `mkRat` (so that the kernel can evaluate it). -/
def decToRat (neg : Bool) (mant : ℕ) (fracLen : ℕ) (e : ℤ) : ℚ :=
  let sgn : ℤ := if neg then -1 else 1
  let e2 : ℤ := e - fracLen
  if 0 ≤ e2 then mkRat (sgn * mant * 10 ^ e2.toNat) 1
  else mkRat (sgn * mant) (10 ^ (-e2).toNat)

def parseExponent (l : List Char) : Option (ℤ × List Char) :=
  match l with
  | 'e' :: r | 'E' :: r =>
    let (sgn, r1) : ℤ × List Char :=
      match r with
      | '+' :: r2 => (1, r2)
      | '-' :: r2 => (-1, r2)
      | _ => (1, r)
    let (ds, r2) := spanDigits r1
    if ds = [] then none else some (sgn * (digitsToNat ds : ℤ), r2)
  | _ => some (0, l)

/-- CPython `float(s)` on the modelled fragment; `none` models `ValueError`. -/
def pyFloat (s : String) : Option ℚ :=
  let l := dropWhileSpace s.data
  let (neg, l1) : Bool × List Char :=
    match l with
    | '+' :: r => (false, r)
    | '-' :: r => (true, r)
    | _ => (false, l)
  match parseMantissa l1 with
  | none => none
  | some (m, k, r) =>
    match parseExponent r with
    | none => none
    | some (e, r2) =>
      if dropWhileSpace r2 = [] then some (decToRat neg m k e) else none

/-- Source `parse_preco_texto_to_float` (src/curva_a_ml.py:248-254):
falsy input (`None` or `""`) gives `None`; otherwise every `.` is removed,
every `,` becomes `.`, and the result is fed to `float(...)`, with any
parse error swallowed to `None`. -/
def parse_preco_texto_to_float (preco_txt : Option String) : Option ℚ :=
  match preco_txt with
  | none => none
  | some s =>
    if s = "" then none
    else pyFloat (pyReplace (pyReplace s "." "") "," ".")

/-! ## Per-term price comparison (claim C1)

Source `comparar_precos_por_consulta` (src/curva_a_ml.py:534-553). A record
carries the fields the function reads: `"Vendedor"` (may be missing /
`None`, read through `or ""`) and `"Preço (num)"` (`None` or a number).
The function adds three fields; `"Nosso menor preço (num)"` is a number or
the empty string, modelled as `Option ℚ` (`none` ↔ `""`). -/

structure Registro where
  vendedor : Option String
  precoNum : Option ℚ
  deriving DecidableEq, Repr

structure RegistroCmp where
  reg : Registro
  eNossaLoja : String
  concorrenteAbaixo : String
  nossoMenor : Option ℚ
  deriving DecidableEq, Repr

def vendedorUpper (r : Registro) : String := pyUpper (r.vendedor.getD "")

/-- Body of the `for r in registros` loop of the source (the three field
assignments performed on each record). -/
def annotateSrc (nossoPreco : Option ℚ) (nossasUpper : List String)
    (r : Registro) : RegistroCmp :=
  let flag := if nossasUpper.contains (vendedorUpper r) then "Sim" else "Não"
  match nossoPreco, r.precoNum with
  | some m, some p =>
    if flag = "Não" then
      { reg := r, eNossaLoja := flag,
        concorrenteAbaixo := if p < m then "Sim" else "Não",
        nossoMenor := some m }
    else
      { reg := r, eNossaLoja := flag, concorrenteAbaixo := "", nossoMenor := some m }
  | _, _ =>
    { reg := r, eNossaLoja := flag, concorrenteAbaixo := "", nossoMenor := nossoPreco }

/-- Translation of the source. The `if not registros: return registros`
guard is omitted because mapping over `[]` already yields `[]`. -/
def comparar_precos_por_consulta (registros : List Registro)
    (nossas_lojas : List String) : List RegistroCmp :=
  let nossasUpper := nossas_lojas.map pyUpper
  let nossos := registros.filter (fun r => nossasUpper.contains (vendedorUpper r))
  let nossosPrecos := nossos.filterMap (fun r => r.precoNum)
  let nossoPreco : Option ℚ := nossosPrecos.min?
  registros.map (annotateSrc nossoPreco nossasUpper)

/-- Spec-side membership test: the record's seller, uppercased, is among the
uppercased monitored-store names (case-insensitive match). -/
def isMonitored (lojas : List String) (r : Registro) : Bool :=
  (lojas.map pyUpper).contains (vendedorUpper r)

/-- Spec-side operator minimum: the minimum numeric price over the records
whose seller is monitored. -/
def operatorMin (registros : List Registro) (lojas : List String) : Option ℚ :=
  ((registros.filter (isMonitored lojas)).filterMap (fun r => r.precoNum)).min?

/-- Spec-side per-record annotation, written from the spec sentence:
membership flag `"Sim"` exactly for monitored sellers; a non-monitored
record with a numeric price and an existing operator minimum is tagged by
strict less-than; every other record gets the empty marker. -/
def annotateSpec (m : Option ℚ) (lojas : List String) (r : Registro) : RegistroCmp :=
  if isMonitored lojas r then
    { reg := r, eNossaLoja := "Sim", concorrenteAbaixo := "", nossoMenor := m }
  else
    match m, r.precoNum with
    | some mv, some p =>
      { reg := r, eNossaLoja := "Não",
        concorrenteAbaixo := if p < mv then "Sim" else "Não", nossoMenor := some mv }
    | _, _ =>
      { reg := r, eNossaLoja := "Não", concorrenteAbaixo := "", nossoMenor := m }

/-- Concrete scenario of the claim: two monitored records at 10.0 and 12.0
and two competitors at 9.5 and 10.5 for the same term. -/
def exRegistrosC1 : List Registro :=
  [ { vendedor := some "LojaA", precoNum := some 10 },
    { vendedor := some "lojaa", precoNum := some 12 },
    { vendedor := some "Rival1", precoNum := some (mkRat 19 2) },
    { vendedor := some "Rival2", precoNum := some (mkRat 21 2) } ]

/-! ## A small backtracking regex engine

Just expressive enough for the concrete patterns of the source: character
classes, (case-insensitive) literals, greedy bounded character-class
repetition, ordered alternation, greedy option, word boundaries (`\b`) and
capture groups. Matching enumerates the engine states in backtracking
priority order (greedy first, left alternative first); the head of the
list is the match Python's `re` would produce. Searching scans start
positions left to right (`re.search` leftmost semantics). -/

inductive RE where
  | eps
  | cls (p : Char → Bool)
  | lit (s : List Char)
  | liti (s : List Char)
  | rep (p : Char → Bool) (lo : ℕ) (hi : Option ℕ)
  | seq (a b : RE)
  | alt (a b : RE)
  | opt (a : RE)
  | wb
  | grp (i : ℕ) (a : RE)

abbrev Caps := List (ℕ × List Char)

def isWordO : Option Char → Bool
  | some c => isWordChar c
  | none => false

/-- Word boundary between the previous character and the head of `s`. -/
def atBoundary (prev : Option Char) (s : List Char) : Bool :=
  isWordO prev != isWordO s.head?

/-- Consume a literal (case-sensitively or not), tracking the last consumed
character. -/
def stripLit (ci : Bool) : List Char → List Char → Option Char →
    Option (List Char × Option Char)
  | [], s, prev => some (s, prev)
  | _ :: _, [], _ => none
  | l :: lt, c :: ct, _ =>
    if (if ci then pyUpperC l = pyUpperC c else l = c) then
      stripLit ci lt ct (some c)
    else none

def prevAfter (prev : Option Char) (consumed : List Char) : Option Char :=
  match consumed.getLast? with
  | some c => some c
  | none => prev

/-- States reachable by a greedy repetition of the class `p`, longest first. -/
def repStates (p : Char → Bool) (lo : ℕ) (hi : Option ℕ) (prev : Option Char)
    (s : List Char) : List (List Char × Option Char) :=
  let maxRun := (s.takeWhile p).length
  let m := match hi with | none => maxRun | some h => min maxRun h
  (List.range (m + 1)).reverse.filterMap (fun k =>
    if lo ≤ k then some (s.drop k, prevAfter prev (s.take k)) else none)

/-- All engine states after matching `re` at the current position, in
backtracking priority order. A state is (remaining input, previous
character, captures so far). -/
def matchRE : RE → Option Char → List Char → Caps →
    List (List Char × Option Char × Caps)
  | .eps, prev, s, caps => [(s, prev, caps)]
  | .cls p, _, s, caps =>
    match s with
    | [] => []
    | c :: rest => if p c then [(rest, some c, caps)] else []
  | .lit l, prev, s, caps =>
    match stripLit false l s prev with
    | some (r, pv) => [(r, pv, caps)]
    | none => []
  | .liti l, prev, s, caps =>
    match stripLit true l s prev with
    | some (r, pv) => [(r, pv, caps)]
    | none => []
  | .rep p lo hi, prev, s, caps =>
    (repStates p lo hi prev s).map (fun x => (x.1, x.2, caps))
  | .seq a b, prev, s, caps =>
    (matchRE a prev s caps).flatMap (fun x => matchRE b x.2.1 x.1 x.2.2)
  | .alt a b, prev, s, caps => matchRE a prev s caps ++ matchRE b prev s caps
  | .opt a, prev, s, caps => matchRE a prev s caps ++ [(s, prev, caps)]
  | .wb, prev, s, caps => if atBoundary prev s then [(s, prev, caps)] else []
  | .grp i a, prev, s, caps =>
    (matchRE a prev s caps).map (fun x =>
      (x.1, x.2.1, (i, s.take (s.length - x.1.length)) :: x.2.2))

structure ReMatch where
  before : List Char
  matched : List Char
  rest : List Char
  pvAfter : Option Char
  caps : Caps
  deriving DecidableEq

def capGet (caps : Caps) (i : ℕ) : List Char :=
  match caps.find? (fun x => x.1 == i) with
  | some x => x.2
  | none => []

/-- Leftmost search (`re.search`): try each start position left to right;
at the first position with a match take the highest-priority one. -/
def searchAux (re : RE) : Option Char → List Char → Option ReMatch
  | prev, [] =>
    match matchRE re prev [] [] with
    | st :: _ => some ⟨[], [], [], prev, st.2.2⟩
    | [] => none
  | prev, c :: t =>
    match matchRE re prev (c :: t) [] with
    | st :: _ =>
      some ⟨[], (c :: t).take ((c :: t).length - st.1.length), st.1, st.2.1, st.2.2⟩
    | [] =>
      match searchAux re (some c) t with
      | some m => some ⟨c :: m.before, m.matched, m.rest, m.pvAfter, m.caps⟩
      | none => none

def reSearch (re : RE) (s : String) : Option ReMatch := searchAux re none s.data

/-- `re.finditer`: repeat the search after each match end (an empty match
advances one character, as in Python). Fuel `s.length + 1` suffices. -/
def findAllAux (re : RE) : ℕ → Option Char → List Char → List ReMatch
  | 0, _, _ => []
  | fuel + 1, prev, s =>
    match searchAux re prev s with
    | none => []
    | some m =>
      if m.matched.isEmpty then
        m :: (match m.rest with
          | [] => []
          | c :: t => findAllAux re fuel (some c) t)
      else m :: findAllAux re fuel m.pvAfter m.rest

def findAll (re : RE) (s : String) : List ReMatch :=
  findAllAux re (s.data.length + 1) none s.data

/-- `re.sub(re, repl, s)`: replace every non-overlapping match left to
right. Fuel `s.length + 1` suffices. -/
def subAllAux (re : RE) (repl : List Char) : ℕ → Option Char → List Char → List Char
  | 0, _, s => s
  | fuel + 1, prev, s =>
    match searchAux re prev s with
    | none => s
    | some m =>
      if m.matched.isEmpty then
        match m.rest with
        | [] => m.before ++ repl
        | c :: t => m.before ++ repl ++ [c] ++ subAllAux re repl fuel (some c) t
      else m.before ++ repl ++ subAllAux re repl fuel m.pvAfter m.rest

def reSub (re : RE) (repl : String) (s : String) : String :=
  String.mk (subAllAux re repl.data (s.data.length + 1) none s.data)

def seqL (l : List RE) : RE := l.foldr RE.seq RE.eps

def altL : List RE → RE
  | [] => RE.eps
  | [r] => r
  | r :: rest => RE.alt r (altL rest)

def litS (s : String) : RE := RE.lit s.data

def litiS (s : String) : RE := RE.liti s.data

/-! ## The query synthesizer `title_to_user_query` (src/curva_a_ml.py:403-493) -/

/-- Char class `[A-ZÁ-Ú]` of the brand-fallback pattern (the Python range
`Á-Ú` is the codepoint range 0xC1–0xDA). -/
def isBrandUp (c : Char) : Bool := isUpperAZ c || (193 ≤ c.toNat && c.toNat ≤ 218)

def isDotComma (c : Char) : Bool := c = '.' || c = ','

/-- `\b[A-ZÁ-Ú]{3,}\b` — brand fallback token. -/
def brandFallbackRE : RE := seqL [.wb, .rep isBrandUp 3 none, .wb]

/-- `\b(\d{1,2})\s*[W]\s*(\d{2})\b` with `re.I` — viscosity grade. -/
def visRE : RE :=
  seqL [.wb, .grp 1 (.rep isDigitC 1 (some 2)), .rep isPySpace 0 none,
    .cls (fun c => c = 'W' || c = 'w'), .rep isPySpace 0 none,
    .grp 2 (.rep isDigitC 2 (some 2)), .wb]

/-- `\b(\d+[.,]?\d*)\s*(LITROS?|L|ML|M[L])\b` with `re.I` — capacity. -/
def capRE : RE :=
  seqL [.wb,
    .grp 1 (seqL [.rep isDigitC 1 none, .opt (.cls isDotComma), .rep isDigitC 0 none]),
    .rep isPySpace 0 none,
    .grp 2 (altL [seqL [litiS "LITRO", .opt (litiS "S")], litiS "L", litiS "ML",
      seqL [litiS "M", .cls (fun c => c = 'L' || c = 'l')]]),
    .wb]

/-- `\b\d{3,4}\+?\b` — bare numeric model token. -/
def tokNumRE : RE :=
  seqL [.wb, .rep isDigitC 3 (some 4), .opt (.cls (fun c => c = '+')), .wb]

def xcessRE : RE :=
  seqL [.wb, litS "X", .opt (.cls (fun c => c = '-' || c = ' ')), litS "CESS", .wb]

def gen2RE : RE := seqL [.wb, litS "GEN2", .wb]

def twoTRE : RE := seqL [.wb, litS "2T", .wb]

def c2plusRE : RE := seqL [.wb, litS "C2", .rep isPySpace 0 none, litS "PLUS", .wb]

def c2RE : RE := seqL [.wb, litS "C2", .wb]

/-- `\b[A-Z]{1,3}\d{3,6}[A-Z]?\b` — product code such as `PH6017A`. -/
def codeRE : RE :=
  seqL [.wb, .rep isUpperAZ 1 (some 3), .rep isDigitC 3 (some 6),
    .opt (.cls isUpperAZ), .wb]

/-- `\b(oleo|óleo|lubrificante|spray|de|do|da|para|off|road|sint[ée]tico|4t)\b`
with `re.I` — stopwords stripped by the fallback cleaning. -/
def stopRE : RE :=
  seqL [.wb,
    .grp 1 (altL [litiS "OLEO", litiS "ÓLEO", litiS "LUBRIFICANTE", litiS "SPRAY",
      litiS "DE", litiS "DO", litiS "DA", litiS "PARA", litiS "OFF", litiS "ROAD",
      seqL [litiS "SINT", .cls (fun c => c = 'e' || c = 'é' || c = 'E' || c = 'É'),
        litiS "TICO"], litiS "4T"]),
    .wb]

/-- `\s+` — whitespace runs collapsed by the fallback cleaning. -/
def wsRE : RE := .rep isPySpace 1 none

/-- `sorted(BRANDS, key=len, reverse=True)`: the source's fixed brand list in
longest-first (stable) order, as iterated by the brand-match loop. -/
def BRANDS_sorted : List String :=
  ["ALPINESTARS", "LIQUI MOLY", "CASTROL", "TIRRENO", "MOTUL", "FRAM", "DID"]

/-- Brand detection: first known brand contained in the uppercased title is
removed and title-cased; otherwise the first all-caps token of length ≥ 3 is
used (and the working copy is left unchanged). Returns (brand, up). -/
def brandStep : List String → String → String × String
  | [], up0 =>
    match reSearch brandFallbackRE up0 with
    | some m => (pyStrip (pyTitle (String.mk m.matched)), up0)
    | none => ("", up0)
  | b :: rest, up0 =>
    if pyContains up0 b then (pyTitle b, pyStrip (pyReplace up0 b " "))
    else brandStep rest up0

def visStep (up : String) : Option String :=
  (reSearch visRE up).map (fun m =>
    String.mk (capGet m.caps 1) ++ "w" ++ String.mk (capGet m.caps 2))

/-- Reducible twin of `a - b` on ℚ (the kernel cannot evaluate `Rat.sub`);
proved equal to subtraction in `ratSub_eq`. -/
def ratSub (a b : ℚ) : ℚ := mkRat (a.num * b.den - b.num * a.den) (a.den * b.den)

/-- Reducible twin of `|a|` on ℚ; proved equal to `abs` in `ratAbs_eq`. -/
def ratAbs (a : ℚ) : ℚ := if a.num < 0 then mkRat (-a.num) a.den else a

def intStr (n : ℤ) : String := toString n

/-! ### IEEE-754 binary64 (Python float) arithmetic

`float(qty)`, `val - 1.0`, `abs(...) < 1e-6`, `is_integer()` and `int()`
in the source are double-precision operations. A finite binary64 value is
held as its exact rational; conversion and subtraction are the exact
result correctly rounded to 53 bits (round to nearest, ties to even),
with subnormals and overflow to infinity. NaN never arises in this
program (`float` of the matched numerals is never NaN), so it is not
modelled; comparison, `abs`, integrality and truncation on finite doubles
are exact on the rational representation. -/

def bitlenAux : ℕ → ℕ → ℕ
  | 0, _ => 0
  | fuel + 1, n => if n = 0 then 0 else bitlenAux fuel (n / 2) + 1

/-- Number of binary digits of `n` (`0` for `0`). -/
def nbits (n : ℕ) : ℕ := bitlenAux n n

/-- Does `n / d ≥ 2^e` hold? -/
def gePow2 (n d : ℕ) (e : ℤ) : Bool :=
  if 0 ≤ e then d * 2 ^ e.toNat ≤ n else d ≤ n * 2 ^ (-e).toNat

/-- `⌊log₂ (n / d)⌋` for positive `n`, `d`. -/
def qLog2 (n d : ℕ) : ℤ :=
  let e1 : ℤ := (nbits n : ℤ) - (nbits d : ℤ)
  if gePow2 n d e1 then e1 else e1 - 1

/-- Round `N / D` (with `D > 0`) to the nearest integer, ties to even. -/
def rndHalfEven (N D : ℕ) : ℕ :=
  let q := N / D
  let r := N % D
  if 2 * r < D then q
  else if D < 2 * r then q + 1
  else if q % 2 = 0 then q else q + 1

/-- Round `(n / d) · 2^k` to the nearest integer, ties to even. -/
def roundScaled (n d : ℕ) (k : ℤ) : ℕ :=
  if 0 ≤ k then rndHalfEven (n * 2 ^ k.toNat) d
  else rndHalfEven n (d * 2 ^ (-k).toNat)

/-- A Python float: a finite binary64 value (as its exact rational) or an
infinity. -/
inductive DFloat
  | num (q : ℚ)
  | inf
  | ninf
  deriving DecidableEq, Repr

/-- Round a rational of magnitude `n / d > 0` to binary64: normal numbers
get a 53-bit significand `m ∈ [2^52, 2^53)` at exponent `e = ⌊log₂⌋`
(renormalizing when rounding carries to `2^53`), values below `2^-1022`
round at the fixed subnormal scale `2^-1074`, and values rounding to
`2^1024` or beyond overflow to infinity. -/
def roundPos (neg : Bool) (n d : ℕ) : DFloat :=
  let sgn : ℤ := if neg then -1 else 1
  let e := qLog2 n d
  if e < -1022 then
    DFloat.num (mkRat (sgn * roundScaled n d 1074) (2 ^ 1074))
  else
    let m := roundScaled n d (52 - e)
    let me2 : ℕ × ℤ := if m = 2 ^ 53 then (2 ^ 52, e + 1) else (m, e)
    if 1023 < me2.2 then (if neg then DFloat.ninf else DFloat.inf)
    else
      let k2 : ℤ := 52 - me2.2
      if 0 ≤ k2 then DFloat.num (mkRat (sgn * me2.1) (2 ^ k2.toNat))
      else DFloat.num (mkRat (sgn * me2.1 * 2 ^ (-k2).toNat) 1)

/-- Correctly-rounded conversion of an exact rational to binary64 (what
CPython's `float(str)` does with the exact value of the literal). -/
def roundD (q : ℚ) : DFloat :=
  if q = 0 then DFloat.num 0
  else roundPos (q.num < 0) q.num.natAbs q.den

/-- `abs` on doubles (kernel-computable twin via `ratAbs`). -/
def dAbs : DFloat → DFloat
  | .num v => .num (ratAbs v)
  | _ => .inf

/-- Strict `<` on doubles (exact on the rational representation). -/
def dLtB : DFloat → DFloat → Bool
  | .num x, .num y => decide (x < y)
  | .num _, .inf => true
  | .ninf, .num _ => true
  | .ninf, .inf => true
  | _, _ => false

/-- Binary64 subtraction: the exact difference, correctly rounded
(kernel-computable twin via `ratSub`). `inf - inf` (NaN) is unreachable
here and mapped to `inf`. -/
def dSub : DFloat → DFloat → DFloat
  | .num x, .num y => roundD (ratSub x y)
  | .num _, .inf => .ninf
  | .num _, .ninf => .inf
  | .inf, _ => .inf
  | .ninf, _ => .ninf

/-- `float.is_integer()`; `False` on infinities, as in Python. -/
def dIsIntB : DFloat → Bool
  | .num v => decide (v.den = 1)
  | _ => false

/-- `int(val)` truncation toward zero for a finite double (callers branch
on finiteness first; `int(±inf)` raises in Python). -/
def dTrunc : DFloat → ℤ
  | .num v => v.num.tdiv v.den
  | _ => 0

/-- Spec-side twin of `dSub` written with standard subtraction. -/
def dSubSpec : DFloat → DFloat → DFloat
  | .num x, .num y => roundD (x - y)
  | .num _, .inf => .ninf
  | .num _, .ninf => .inf
  | .inf, _ => .inf
  | .ninf, _ => .ninf

/-- Spec-side twin of `dAbs` written with standard `|·|`. -/
def dAbsSpec : DFloat → DFloat
  | .num v => .num |v|
  | _ => .inf

/-- Capacity detection and normalization (source lines 427-451). `qty` is
the captured decimal with `,` turned into `.`; `val = float(qty)` is the
double `(pyFloat qty).map roundD`; `abs(val - 1.0) < 1e-6` is the double
test `dLtB (dAbs (dSub val 1.0)) float(1e-6)`; `val.is_integer()` is
`dIsIntB`; `int(val)` truncation is `dTrunc` (with `int(inf)` raising into
the `except` fallback of the ml branch). -/
def capStep (up : String) : Option String :=
  match reSearch capRE up with
  | none => none
  | some m =>
    let qty := pyReplace (String.mk (capGet m.caps 1)) "," "."
    let unit := pyUpper (String.mk (capGet m.caps 2))
    let val : Option DFloat := (pyFloat qty).map roundD
    if unit = "L" || unit = "LITRO" || unit = "LITROS" then
      match val with
      | some dv =>
        if dLtB (dAbs (dSub dv (DFloat.num 1))) (roundD (mkRat 1 1000000)) then
          some "1 litro"
        else if dIsIntB dv then some (intStr (dTrunc dv) ++ " litros")
        else some (qty ++ " litros")
      | none => some (qty ++ " litro")
    else
      match val with
      | some (DFloat.num v) => some (intStr (v.num.tdiv v.den) ++ " ml")
      | _ => some (qty ++ " ml")

/-- Auxiliary model/code tokens (source lines 453-468), in append order. -/
def tokensStep (up : String) : List String :=
  ((findAll tokNumRE up).map (fun m => String.mk m.matched)) ++
  (if (reSearch xcessRE up).isSome then ["X-Cess"] else []) ++
  (if (reSearch gen2RE up).isSome then ["Gen2"] else []) ++
  (if (reSearch twoTRE up).isSome then ["2t"] else []) ++
  (if (reSearch c2plusRE up).isSome then ["C2 Plus"]
   else if (reSearch c2RE up).isSome then ["C2"] else [])

/-- Product-code search (source line 471). -/
def codeStep (up : String) : Option String :=
  (reSearch codeRE up).map (fun m => String.mk m.matched)

/-- Chain-lube/road tokens appended after the code check (lines 477-480). -/
def chainRoadStep (up : String) : List String :=
  (if pyContains up "CHAIN" && pyContains up "LUBE" then ["Chain", "Lube"] else []) ++
  (if pyContains up "ROAD" then ["Road"] else [])

def joinSpace : List String → String
  | [] => ""
  | [p] => p
  | p :: rest => p ++ " " ++ joinSpace rest

/-- Python `" ".join([p for p in parts if p])`. -/
def joinNE (l : List String) : String := joinSpace (l.filter (fun p => !(p == "")))

/-- Query composition `<brand> <tokens...> <viscosity?> <capacity?>`
(source lines 482-488). -/
def composeQuery (brand : String) (up : String) : String :=
  pyStrip (joinNE ([brand] ++ tokensStep up ++ chainRoadStep up ++
    (visStep up).toList ++ (capStep up).toList))

/-- Stopword-stripping fallback cleaning (source lines 490-492). -/
def fallbackClean (s : String) : String :=
  pyStrip (reSub wsRE " " (reSub stopRE " " s))

/-- Source `title_to_user_query` (src/curva_a_ml.py:403-493). -/
def title_to_user_query (title : String) : String :=
  let s := pyStrip title
  if s = "" then ""
  else
    let bu := brandStep BRANDS_sorted (pyUpper s)
    let brand := bu.1
    let up := bu.2
    match codeStep up with
    | some code => pyStrip (joinNE [brand, code])
    | none =>
      let consulta := composeQuery brand up
      if consulta = "" || pyLower consulta = pyLower brand then fallbackClean s
      else consulta

/-- Spec-side capacity normalization, written from the (amended) claim:
with `val` the IEEE-754 double of the captured quantity, the token is
`"1 litro"` when the double test `abs(val - 1.0) < 1e-6` succeeds (a
tolerance band around one liter), the truncated `"<n> litros"` when `val`
is integral outside that band, `"<decimal> litros"` (raw captured text,
comma turned to dot) otherwise; milliliter values give the truncated
`"<int> ml"`; when conversion fails (or overflows, in the ml branch) the
raw captured decimal text is used. Standard `-`, `|·|` and `/` here are
bridged to the kernel-computable twins in the theorem. -/
def capSpec (qty unit : String) : String :=
  let isLiter := unit = "L" ∨ unit = "LITRO" ∨ unit = "LITROS"
  match (pyFloat qty).map roundD with
  | some dv =>
    if isLiter then
      if dLtB (dAbsSpec (dSubSpec dv (DFloat.num 1))) (roundD (1/1000000)) then
        "1 litro"
      else if dIsIntB dv then intStr (dTrunc dv) ++ " litros"
      else qty ++ " litros"
    else
      match dv with
      | DFloat.num v => intStr (v.num.tdiv v.den) ++ " ml"
      | _ => qty ++ " ml"
  | none => if isLiter then qty ++ " litro" else qty ++ " ml"

/-- The four shapes `title_to_user_query` can return: empty, the stopword
fallback cleaning, the brand–code short circuit, or the composed query. -/
def tuqOutcomes (title : String) : List String :=
  let s := pyStrip title
  let bu := brandStep BRANDS_sorted (pyUpper s)
  ["", fallbackClean s,
   pyStrip (joinNE [bu.1, (codeStep bu.2).getD ""]),
   composeQuery bu.1 bu.2]

/-! ## Candidate selection / dedup (claim C4)

Source: the `for i, card in enumerate(cards)` loop of `ScraperThread.run`
(src/curva_a_ml.py:643-669). A parsed card is abstracted to its link (as
extracted; `None` or `""` are falsy in the `if not link` guard) and its
remaining payload. The loop keeps a `vistos_links` set and a running
`selecionados` list, skips linkless and already-seen links, and breaks
right after the appended list reaches `first_n` entries. -/

structure Card where
  link : Option String
  titulo : String
  deriving DecidableEq, Repr

/-- Python truthiness of the card's link (`None` and `""` are falsy). -/
def hasLink (c : Card) : Bool :=
  match c.link with
  | some l => !(l == "")
  | none => false

/-- The selection loop, parametrized by the seen-link set and the current
`selecionados` length (the break condition `len(selecionados) >= first_n`
is checked after each append). -/
def selecionarAux (first_n : ℕ) (vistos : List String) (cnt : ℕ) :
    List Card → List Card
  | [] => []
  | c :: rest =>
    match c.link with
    | none => selecionarAux first_n vistos cnt rest
    | some l =>
      if l = "" || decide (l ∈ vistos) then selecionarAux first_n vistos cnt rest
      else if first_n ≤ cnt + 1 then [c]
      else c :: selecionarAux first_n (l :: vistos) (cnt + 1) rest

def selecionar (first_n : ℕ) (cards : List Card) : List Card :=
  selecionarAux first_n [] 0 cards

/-- Spec-side first-seen-link-wins dedup (no cap): a card survives iff it
has a truthy link that no earlier surviving card carries. -/
def dedupFirstAux (vistos : List String) : List Card → List Card
  | [] => []
  | c :: rest =>
    match c.link with
    | none => dedupFirstAux vistos rest
    | some l =>
      if l = "" || decide (l ∈ vistos) then dedupFirstAux vistos rest
      else c :: dedupFirstAux (l :: vistos) rest

def dedupFirst (cards : List Card) : List Card := dedupFirstAux [] cards

def exCardsC4 : List Card :=
  [ { link := some "a", titulo := "t1" },
    { link := some "a", titulo := "t2" },
    { link := none, titulo := "t3" },
    { link := some "b", titulo := "t4" },
    { link := some "c", titulo := "t5" } ]

def exCardsC4distinct : List Card :=
  [ { link := some "x", titulo := "u1" },
    { link := some "y", titulo := "u2" },
    { link := some "z", titulo := "u3" } ]

/-! ## List-page / detail-page merge (claim C6)

Source lines 700-703 of `ScraperThread.run`. The list-page (candidate)
fields and the detail-page fields that take part in the merge; text price
uses Python `or` (so an empty string also falls back), the three numeric
fields use an `is not None` test. -/

structure CandidateL where
  precoTxt : Option String
  precoNum : Option ℚ
  nota : Option ℚ
  avaliacoes : Option ℕ
  deriving DecidableEq, Repr

structure PdpData where
  precoTxt : Option String
  precoNum : Option ℚ
  nota : Option ℚ
  avaliacoes : Option ℕ
  deriving DecidableEq, Repr

structure MergedFields where
  preco : Option String
  precoNum : Option ℚ
  nota : Option ℚ
  avaliacoes : Option ℕ
  deriving DecidableEq, Repr

/-- Python `a or b` for an optional string (`None` and `""` are falsy). -/
def pyOrStr (a b : Option String) : Option String :=
  match a with
  | some s => if s = "" then b else some s
  | none => b

/-- Python `a if a is not None else b`. -/
def ifNotNone {α : Type} (a b : Option α) : Option α :=
  match a with
  | some x => some x
  | none => b

/-- The merge of source lines 700-703. -/
def mergeListDetail (base : CandidateL) (pdp : PdpData) : MergedFields :=
  { preco := pyOrStr base.precoTxt pdp.precoTxt
    precoNum := ifNotNone base.precoNum pdp.precoNum
    nota := ifNotNone base.nota pdp.nota
    avaliacoes := ifNotNone base.avaliacoes pdp.avaliacoes }

/-- Python truthiness of an optional string. -/
def strTruthy : Option String → Bool
  | some s => !(s == "")
  | none => false

/-- Number of populated merge-relevant fields of a candidate. -/
def popCountL (c : CandidateL) : ℕ :=
  (if strTruthy c.precoTxt then 1 else 0) + (if c.precoNum.isSome then 1 else 0) +
  (if c.nota.isSome then 1 else 0) + (if c.avaliacoes.isSome then 1 else 0)

/-- Number of populated merge-relevant fields of a merged record. -/
def popCountM (m : MergedFields) : ℕ :=
  (if strTruthy m.preco then 1 else 0) + (if m.precoNum.isSome then 1 else 0) +
  (if m.nota.isSome then 1 else 0) + (if m.avaliacoes.isSome then 1 else 0)

/-! ## Orchestrator loops with cooperative cancellation (claim C7)

Model of the term loop and per-candidate loop of `ScraperThread.run`
(src/curva_a_ml.py:607-737). The cancellation flag (`stop_evt`) is set by
another thread, so it is modelled as an oracle `flag : ℕ → Bool` of the
values observed at successive checks (the loop reads it exactly at the top
of the term loop and at the top of each candidate iteration; `t` counts
reads). The browser work per term is abstracted: `consulta` empty or
`searchOk = false` covers the source's skip paths (empty query, search
timeout, no cards, no survivors); each surviving candidate either yields a
record (`ok = true`, `open_pdp` succeeded) or is skipped. After the
candidate loop the source writes the accumulated buffer to the partial
artifact whenever it is non-empty — modelled as the checkpoint list. -/

structure CandWork (α : Type) where
  ok : Bool
  payload : α
  deriving DecidableEq, Repr

structure TermWork (α : Type) where
  consulta : String
  searchOk : Bool
  cands : List (CandWork α)
  deriving DecidableEq, Repr

/-- The per-candidate loop: checks the flag at the top of each iteration
(`if self.stop_evt.is_set(): break`), then appends the candidate's record
when its detail page opened. Returns collected records and the clock. -/
def processCands {α : Type} (flag : ℕ → Bool) : ℕ → List (CandWork α) → List α × ℕ
  | t, [] => ([], t)
  | t, c :: rest =>
    if flag t then ([], t + 1)
    else
      let pr := processCands flag (t + 1) rest
      ((if c.ok then [c.payload] else []) ++ pr.1, pr.2)

/-- The term loop: checks the flag at the top (`break`), skips empty
queries and failed searches (`continue`), otherwise runs the candidate
loop, appends to the run buffer and checkpoints it when non-empty.
Returns (final buffer, checkpoints written, clock). -/
def runTerms {α : Type} (flag : ℕ → Bool) :
    ℕ → List α → List (List α) → List (TermWork α) → List α × List (List α) × ℕ
  | t, buffer, cps, [] => (buffer, cps, t)
  | t, buffer, cps, tw :: rest =>
    if flag t then (buffer, cps, t + 1)
    else if tw.consulta = "" || !tw.searchOk then runTerms flag (t + 1) buffer cps rest
    else
      let pr := processCands flag (t + 1) tw.cands
      let buffer2 := buffer ++ pr.1
      runTerms flag pr.2 buffer2 (cps ++ (if buffer2.isEmpty then [] else [buffer2])) rest

/-! ## Detail-page opening with anti-bot detection (claim C8)

Model of `open_pdp` (src/curva_a_ml.py:156-201) and `looks_like_antibot`
(127-133). Each attempt's page behavior is a `VisitEnv`: how navigation
ends (`load` wait, `networkidle` fallback, or both timing out — the outer
`except` path), whether the body text is readable and its content, and the
outcomes of the two readiness probes (before and after the reload). The
function returns success plus the trace of modelled actions, letting the
theorems state which actions the anti-bot path does and does not take. -/

def ANTI_BOT_HINTS : List String :=
  ["verifique que você não é um robô", "não somos um robô",
   "acessar o mercado livre", "acesso temporariamente bloqueado",
   "verificação de segurança", "captcha"]

inductive NavResult
  | loadOk | idleOk | navFail
  deriving DecidableEq, Repr

structure VisitEnv where
  nav : NavResult
  bodyReadable : Bool
  body : String
  ready1 : Bool
  ready2 : Bool
  deriving DecidableEq, Repr

/-- Source `looks_like_antibot`: the lowercased body text contains one of
the fixed hint phrases; an unreadable body (exception) yields `False`. -/
def looks_like_antibot (env : VisitEnv) : Bool :=
  env.bodyReadable && ANTI_BOT_HINTS.any (fun h => pyContains (pyLower env.body) h)

inductive PdpEvent
  | navigate | logNavError | shotAntibot | logAntibot | probeReady | reloadPage
  | probeAgain | shotFail | logNotReady
  deriving DecidableEq, Repr

/-- Source `open_pdp`: the attempt loop, one `VisitEnv` per attempt (the
caller passes `attempt_max = 3`, i.e. a 3-element list). Cookie dismissal
and scroll nudges are best-effort no-ops and carry no events; screenshots
are modelled as their attempt event regardless of success (failures are
swallowed by the source). -/
def open_pdp (hasLog : Bool) : List VisitEnv → Bool × List PdpEvent
  | [] => (false, [])
  | env :: rest =>
    match env.nav with
    | .navFail =>
      let pr := open_pdp hasLog rest
      (pr.1, [PdpEvent.navigate] ++ (if hasLog then [PdpEvent.logNavError] else []) ++ pr.2)
    | _ =>
      if looks_like_antibot env then
        (false, [PdpEvent.navigate, PdpEvent.shotAntibot] ++
          (if hasLog then [PdpEvent.logAntibot] else []))
      else if env.ready1 then (true, [PdpEvent.navigate, PdpEvent.probeReady])
      else if env.ready2 then
        (true, [PdpEvent.navigate, PdpEvent.probeReady, PdpEvent.reloadPage,
          PdpEvent.probeAgain])
      else
        let pr := open_pdp hasLog rest
        (pr.1, [PdpEvent.navigate, PdpEvent.probeReady, PdpEvent.reloadPage,
          PdpEvent.probeAgain, PdpEvent.shotFail] ++
          (if hasLog then [PdpEvent.logNotReady] else []) ++ pr.2)

/-- Events of one failed-navigation attempt (both gotos time out; the outer
`except` logs and moves to the next attempt). -/
def failTrace (hasLog : Bool) : List PdpEvent :=
  [PdpEvent.navigate] ++ (if hasLog then [PdpEvent.logNavError] else [])

/-- Events of the anti-bot detection path: one diagnostic screenshot
attempt, one log entry, and nothing else. -/
def antibotTrace (hasLog : Bool) : List PdpEvent :=
  [PdpEvent.navigate, PdpEvent.shotAntibot] ++ (if hasLog then [PdpEvent.logAntibot] else [])

/-- A visit whose body text contains the `captcha` hint. -/
def exEnvC8 : VisitEnv :=
  { nav := NavResult.loadOk, bodyReadable := true,
    body := "Ops: CAPTCHA detectado", ready1 := false, ready2 := false }

/-! ## Final-report ordering (claim C3)

Source lines 745-751: the accumulated records get helper columns
`pd.to_numeric(..., errors="coerce")` (missing ratings / counts become
NaN, modelled as `none`) and are sorted by
`["Termo original", "Patrocinado", "Nota média (ord)", "Nº avaliações (ord)"]`
with `ascending=[True, True, False, False]`. pandas' multi-key
`sort_values` is a stable lexicographic sort (`np.lexsort`) with the
default `na_position="last"` placing NaN after every number in each key;
it is modelled as a stable insertion sort by the corresponding key: Term
ascending, sponsorship string ascending, rating into `WithTop ℚᵒᵈ`
(descending, missing last), review count likewise. -/

structure SortRec where
  termo : String
  patro : String
  nota : Option ℚ
  aval : Option ℚ
  payload : String
  deriving DecidableEq, Repr

def keyT (r : SortRec) : String × String × Option ℚ × Option ℚ :=
  (r.termo, r.patro, r.nota, r.aval)

/-- A descending-with-missing-last column key: numbers reversed
(`OrderDual`), missing (`NaN`) greatest, i.e. last in ascending output. -/
def notaKey (o : Option ℚ) : WithTop ℚᵒᵈ :=
  match o with
  | some x => ((OrderDual.toDual x : ℚᵒᵈ) : WithTop ℚᵒᵈ)
  | none => ⊤

/-- The full lexicographic sort key of `df.sort_values(by=[...],
ascending=[True, True, False, False])`. -/
def sortKey (r : SortRec) : Lex (String × Lex (String × Lex (WithTop ℚᵒᵈ × WithTop ℚᵒᵈ))) :=
  toLex (r.termo, toLex (r.patro, toLex (notaKey r.nota, notaKey r.aval)))

/-- Stable insertion: a record is placed after every record it does not
strictly precede, so records with equal keys keep their input order. -/
def insRec (x : SortRec) : List SortRec → List SortRec
  | [] => [x]
  | y :: ys => if sortKey x < sortKey y then x :: y :: ys else y :: insRec x ys

/-- Model of the source's `df.sort_values(...)` call: a stable sort by the
four-column lexicographic key. -/
def sort_values (l : List SortRec) : List SortRec :=
  l.foldl (fun acc x => insRec x acc) []

/-- Spec-side strict precedence on a descending, missing-last column. -/
def optDescLT (a b : Option ℚ) : Prop :=
  match a, b with
  | some x, some y => y < x
  | some _, none => True
  | none, _ => False

/-- Spec-side strict precedence, written from the claim: Term ascending,
then sponsorship flag ascending, then rating descending with missing
ratings last, then review count descending with missing counts last. -/
def specLT (a b : SortRec) : Prop :=
  a.termo < b.termo ∨ (a.termo = b.termo ∧
    (a.patro < b.patro ∨ (a.patro = b.patro ∧
      (optDescLT a.nota b.nota ∨ (a.nota = b.nota ∧ optDescLT a.aval b.aval)))))

/-- Spec-side weak precedence: strictly earlier, or all four keys equal. -/
def specLE (a b : SortRec) : Prop := specLT a b ∨ keyT a = keyT b

/-! ## Theorems -/

/-- The reducible subtraction twin agrees with `Rat` subtraction. -/
theorem ratSub_eq (a b : ℚ) : ratSub a b = a - b := (Rat.sub_def' a b).symm

/-- The reducible absolute-value twin agrees with `abs`. -/
theorem ratAbs_eq (a : ℚ) : ratAbs a = |a| := by
  unfold ratAbs
  by_cases h : a.num < 0
  · have ha : a < 0 := by
      have := Rat.num_nonneg (q := a)
      by_contra hge
      exact absurd (this.mpr (le_of_not_lt hge)) (not_le.mpr h)
    rw [if_pos h, abs_of_neg ha, ← Rat.neg_mkRat, Rat.mkRat_self]
  · have ha : 0 ≤ a := Rat.num_nonneg.mp (le_of_not_lt h)
    rw [if_neg h, abs_of_nonneg ha]

theorem mkRat_one_millionth : (mkRat 1 1000000 : ℚ) = 1/1000000 := by
  rw [Rat.mkRat_eq_divInt, Rat.divInt_eq_div]; norm_num

/-- The kernel-computable double subtraction agrees with the one written
with standard rational subtraction. -/
theorem dSub_spec_eq (a b : DFloat) : dSub a b = dSubSpec a b := by
  cases a <;> cases b <;> simp [dSub, dSubSpec, ratSub_eq]

/-- The kernel-computable double `abs` agrees with the one written with
standard `|·|`. -/
theorem dAbs_spec_eq (d : DFloat) : dAbs d = dAbsSpec d := by
  cases d <;> simp [dAbs, dAbsSpec, ratAbs_eq]

/-- C2: whenever the working copy (the uppercased, stripped title after
removal of a matched known brand) contains a product-code token — i.e. the
code search succeeds — `title_to_user_query` short-circuits and returns
exactly the brand followed by a space and the code (the code alone when the
brand is empty), with no viscosity, capacity or auxiliary tokens. -/
theorem title_code_short_circuit (title code : String) (hs : pyStrip title ≠ "")
    (hc : codeStep (brandStep BRANDS_sorted (pyUpper (pyStrip title))).2 = some code) :
    title_to_user_query title =
      pyStrip (joinNE [(brandStep BRANDS_sorted (pyUpper (pyStrip title))).1, code]) := by
  unfold title_to_user_query
  simp only [hs, if_false, hc]

/-- Witness for C2 at the title `"FRAM PH6017A"`: the brand is `Fram`, the
code is `PH6017A`, and the query is exactly `"Fram PH6017A"`. -/
theorem title_code_short_circuit_witness :
    pyStrip "FRAM PH6017A" ≠ "" ∧
    codeStep (brandStep BRANDS_sorted (pyUpper (pyStrip "FRAM PH6017A"))).2 =
      some "PH6017A" ∧
    title_to_user_query "FRAM PH6017A" = "Fram PH6017A" :=
  ⟨by decide, by decide,
    (title_code_short_circuit "FRAM PH6017A" "PH6017A" (by decide) (by decide)).trans
      (by decide)⟩

/-- C5, counterexample to the claim as stated: the source accepts a whole
1e-6 tolerance band around 1.0, not only the exact value. The title
`"1.0000001 LITRO"` has capacity value 10000001/10000000 — fractional and
different from 1.0, so the claim demands the token `"1.0000001 litros"` —
yet the code produces `"1 litro"` (the double of the quantity is about
1e-7 above 1.0, inside the band). -/
theorem capStep_tolerance_counterexample :
    capStep "1.0000001 LITRO" = some "1 litro" ∧
    pyFloat "1.0000001" = some (mkRat 10000001 10000000) ∧
    (mkRat 10000001 10000000 : ℚ).den ≠ 1 ∧
    (mkRat 10000001 10000000 : ℚ) ≠ 1 ∧
    "1 litro" ≠ "1.0000001 litros" := by
  refine ⟨by decide, by decide, by decide, by decide, by decide⟩

/-- C5 (amended): for every title containing a capacity pattern, with
`val` the IEEE-754 double `float(qty)` of the captured quantity, the
capacity token is `"1 litro"` when the double test `abs(val - 1.0) < 1e-6`
succeeds (a tolerance band around one liter, not only exactly 1.0),
`"<n> litros"` when `val` is integral outside that band,
`"<decimal> litros"` (the raw captured text, comma turned to dot) for
other liter values, and the truncated `"<int> ml"` for milliliter values,
falling back to the raw captured decimal text when conversion fails; in
particular `"1 Litro"` → `"1 litro"`, `"2 Litros"` → `"2 litros"`,
`"500ML"` → `"500 ml"`, `"1.5L"` → `"1.5 litros"`, and — by double
rounding — `"1.000001 L"` → `"1 litro"` and
`"2.000000000000000001 L"` → `"2 litros"`. -/
theorem capStep_capacity_normalization (up : String) (m : ReMatch)
    (h : reSearch capRE up = some m) :
    capStep up =
      some (capSpec (pyReplace (String.mk (capGet m.caps 1)) "," ".")
        (pyUpper (String.mk (capGet m.caps 2)))) ∧
    capStep "1 Litro" = some "1 litro" ∧
    capStep "2 Litros" = some "2 litros" ∧
    capStep "500ML" = some "500 ml" ∧
    capStep "1.5L" = some "1.5 litros" ∧
    capStep "1.000001 L" = some "1 litro" ∧
    capStep "2.000000000000000001 L" = some "2 litros" := by
  refine ⟨?_, by decide, by decide, by decide, by decide, by decide, by decide⟩
  unfold capStep capSpec
  rw [h]
  rcases hv : pyFloat (pyReplace (String.mk (capGet m.caps 1)) "," ".") with _ | v
  · by_cases hL : pyUpper (String.mk (capGet m.caps 2)) = "L" ∨
        pyUpper (String.mk (capGet m.caps 2)) = "LITRO" ∨
        pyUpper (String.mk (capGet m.caps 2)) = "LITROS" <;>
    simp [hv, hL, or_assoc]
  · rcases hr : roundD v with w | _ | _ <;>
    by_cases hL : pyUpper (String.mk (capGet m.caps 2)) = "L" ∨
        pyUpper (String.mk (capGet m.caps 2)) = "LITRO" ∨
        pyUpper (String.mk (capGet m.caps 2)) = "LITROS" <;>
    simp [hv, hr, hL, dSub_spec_eq, dAbs_spec_eq, mkRat_one_millionth, or_assoc] <;>
    split_ifs <;> rfl

/-- Witness for C5 (amended) at `"1 Litro"`: the capacity search matches
with captures `1` and `Litro`, and the token is the spec normalization of
qty `"1"`, unit `"LITRO"`, namely `"1 litro"`. -/
theorem capStep_capacity_normalization_witness :
    reSearch capRE "1 Litro" =
      some ⟨[], "1 Litro".data, [], some 'o',
        [(2, "Litro".data), (1, "1".data)]⟩ ∧
    capStep "1 Litro" = some (capSpec "1" "LITRO") ∧
    capSpec "1" "LITRO" = "1 litro" := by
  have h := (capStep_capacity_normalization "1 Litro"
    ⟨[], "1 Litro".data, [], some 'o', [(2, "Litro".data), (1, "1".data)]⟩
    (by decide)).1
  rw [show pyReplace (String.mk (capGet
      [(2, "Litro".data), (1, "1".data)] 1)) "," "." = "1" from by decide,
    show pyUpper (String.mk (capGet
      [(2, "Litro".data), (1, "1".data)] 2)) = "LITRO" from by decide] at h
  have h2 : capStep "1 Litro" = some "1 litro" := by decide
  exact ⟨by decide, h, Option.some.inj (h.symm.trans h2)⟩

/-- C9: `title_to_user_query` is a total function (the embedding is a plain
Lean function, so it terminates, raises nothing and is deterministic); a
whitespace-only title yields the empty string, and every result is one of
the four documented shapes: empty, the best-effort stopword-stripped
cleaning, the brand–code short circuit, or the composed query. -/
theorem title_to_user_query_total (title : String) :
    (pyStrip title = "" → title_to_user_query title = "") ∧
    title_to_user_query title ∈ tuqOutcomes title := by
  unfold title_to_user_query tuqOutcomes
  by_cases hs : pyStrip title = ""
  · simp [hs]
  · refine ⟨fun h => absurd h hs, ?_⟩
    simp only [hs, if_false]
    rcases hc : codeStep (brandStep BRANDS_sorted (pyUpper (pyStrip title))).2 with _ | code
    · by_cases hq : composeQuery (brandStep BRANDS_sorted (pyUpper (pyStrip title))).1
          (brandStep BRANDS_sorted (pyUpper (pyStrip title))).2 = "" ∨
        pyLower (composeQuery (brandStep BRANDS_sorted (pyUpper (pyStrip title))).1
          (brandStep BRANDS_sorted (pyUpper (pyStrip title))).2) =
          pyLower (brandStep BRANDS_sorted (pyUpper (pyStrip title))).1
      · simp [hq, List.mem_cons]
      · simp [hq, List.mem_cons]
    · simp [hc, List.mem_cons]

/-- Witness for C9 at the whitespace-only title `"   "`. -/
theorem title_to_user_query_total_witness :
    pyStrip "   " = "" ∧ title_to_user_query "   " = "" :=
  ⟨by decide, (title_to_user_query_total "   ").1 (by decide)⟩

/-- Per-record agreement between the source loop body and the spec-side
annotation. -/
theorem annotateSrc_eq_annotateSpec (m : Option ℚ) (lojas : List String)
    (r : Registro) : annotateSrc m (lojas.map pyUpper) r = annotateSpec m lojas r := by
  unfold annotateSrc annotateSpec isMonitored
  by_cases hM : vendedorUpper r ∈ lojas.map pyUpper
  · cases m <;> cases hp : r.precoNum <;> simp [hM, hp]
  · cases m <;> cases hp : r.precoNum <;> simp [hM, hp]

/-- C1: `comparar_precos_por_consulta` computes the operator minimum as the
minimum numeric price over the records whose seller matches a monitored
store case-insensitively; it tags membership `"Sim"` exactly for monitored
sellers; every non-monitored record with a numeric price, when the minimum
exists, is tagged `"Sim"` iff its price is strictly below the minimum and
`"Não"` otherwise; every other record gets the empty marker. In particular,
with monitored prices 10.0 and 12.0, a competitor at 9.5 is tagged `"Sim"`
with operator minimum 10.0 and a competitor at 10.5 is tagged `"Não"`. -/
theorem comparar_precos_correct :
    (∀ (registros : List Registro) (lojas : List String),
        comparar_precos_por_consulta registros lojas =
          registros.map (annotateSpec (operatorMin registros lojas) lojas)) ∧
    (mkRat 19 2 = (19/2 : ℚ) ∧ mkRat 21 2 = (21/2 : ℚ)) ∧
    comparar_precos_por_consulta exRegistrosC1 ["lojaA"] =
      [ { reg := { vendedor := some "LojaA", precoNum := some 10 },
          eNossaLoja := "Sim", concorrenteAbaixo := "", nossoMenor := some 10 },
        { reg := { vendedor := some "lojaa", precoNum := some 12 },
          eNossaLoja := "Sim", concorrenteAbaixo := "", nossoMenor := some 10 },
        { reg := { vendedor := some "Rival1", precoNum := some (mkRat 19 2) },
          eNossaLoja := "Não", concorrenteAbaixo := "Sim", nossoMenor := some 10 },
        { reg := { vendedor := some "Rival2", precoNum := some (mkRat 21 2) },
          eNossaLoja := "Não", concorrenteAbaixo := "Não", nossoMenor := some 10 } ] := by
  refine ⟨?_, ⟨?_, ?_⟩, ?_⟩
  · intro registros lojas
    unfold comparar_precos_por_consulta operatorMin
    exact List.map_congr_left (fun r _ => annotateSrc_eq_annotateSpec _ lojas r)
  · rw [Rat.mkRat_eq_divInt, Rat.divInt_eq_div]; norm_num
  · rw [Rat.mkRat_eq_divInt, Rat.divInt_eq_div]; norm_num
  · decide

/-- C10: `parse_preco_texto_to_float` never raises; it returns `none` for
`None`/empty input and otherwise parses the text after removing every `.`
and turning every `,` into `.` (so `"1.234,56"` is 1234.56 and `"1.5"` is
15.0, the dot being a thousands separator), returning `none` when the
transformed text is not numeric. -/
theorem parse_preco_texto_correct :
    parse_preco_texto_to_float none = none ∧
    (∀ s : String,
        parse_preco_texto_to_float (some s) =
          pyFloat (pyReplace (pyReplace s "." "") "," ".")) ∧
    parse_preco_texto_to_float (some "1.234,56") = some (30864/25 : ℚ) ∧
    parse_preco_texto_to_float (some "1.5") = some 15 ∧
    parse_preco_texto_to_float (some "1.5") ≠ some (3/2 : ℚ) ∧
    parse_preco_texto_to_float (some "abc") = none := by
  have h1 : (30864/25 : ℚ) = mkRat 123456 100 := by
    rw [Rat.mkRat_eq_divInt, Rat.divInt_eq_div]; norm_num
  have h2 : (3/2 : ℚ) = mkRat 3 2 := by
    rw [Rat.mkRat_eq_divInt, Rat.divInt_eq_div]; norm_num
  refine ⟨rfl, ?_, by rw [h1]; decide, by decide, by rw [h2]; decide, by decide⟩
  intro s
  by_cases hs : s = ""
  · subst hs; decide
  · simp [parse_preco_texto_to_float, hs]

/-- Selection agrees with spec-side dedup truncated to the cap: with the
seen-set and count threaded, the loop returns the first `first_n - cnt`
entries of the capless first-wins dedup. -/
theorem selAux_eq_take (first_n : ℕ) :
    ∀ (cards : List Card) (vistos : List String) (cnt : ℕ), cnt < first_n →
      selecionarAux first_n vistos cnt cards = (dedupFirstAux vistos cards).take (first_n - cnt)
  | [], _, _, _ => by simp [selecionarAux, dedupFirstAux]
  | c :: rest, vistos, cnt, h => by
    unfold selecionarAux dedupFirstAux
    cases hl : c.link with
    | none => exact selAux_eq_take first_n rest vistos cnt h
    | some l =>
      by_cases hskip : (l = "" || decide (l ∈ vistos)) = true
      · simp only [hskip, if_true]
        exact selAux_eq_take first_n rest vistos cnt h
      · simp only [hskip, Bool.false_eq_true, if_false]
        by_cases hcap : first_n ≤ cnt + 1
        · have hone : first_n - cnt = 1 := by omega
          simp [hcap, hone]
        · have h2 : cnt + 1 < first_n := by omega
          have hsub : first_n - cnt = (first_n - (cnt + 1)) + 1 := by omega
          simp [hcap, hsub, selAux_eq_take first_n rest (l :: vistos) (cnt + 1) h2]

/-- The capless dedup keeps only cards with truthy links, is a sublist of
its input, has pairwise-distinct links, and its links avoid the seen set. -/
theorem dedupFirstAux_props :
    ∀ (cards : List Card) (vistos : List String),
      (∀ c ∈ dedupFirstAux vistos cards, hasLink c = true) ∧
      List.Sublist (dedupFirstAux vistos cards) cards ∧
      ((dedupFirstAux vistos cards).filterMap Card.link).Nodup ∧
      (∀ l ∈ (dedupFirstAux vistos cards).filterMap Card.link, l ∉ vistos)
  | [], vistos => by simp [dedupFirstAux]
  | c :: rest, vistos => by
    obtain ⟨ih1, ih2, ih3, ih4⟩ := dedupFirstAux_props rest vistos
    unfold dedupFirstAux
    cases hl : c.link with
    | none =>
      exact ⟨ih1, ih2.cons _, ih3, ih4⟩
    | some l =>
      by_cases hskip : (l = "" || decide (l ∈ vistos)) = true
      · simp only [hskip, if_true]
        exact ⟨ih1, ih2.cons _, ih3, ih4⟩
      · obtain ⟨jh1, jh2, jh3, jh4⟩ := dedupFirstAux_props rest (l :: vistos)
        simp only [hskip, Bool.false_eq_true, if_false]
        have hne : ¬(l = "") ∧ l ∉ vistos := by
          simpa [Bool.or_eq_true, decide_eq_true_eq] using hskip
        refine ⟨?_, jh2.cons₂ _, ?_, ?_⟩
        · intro c2 hc2
          rcases List.mem_cons.mp hc2 with rfl | hmem
          · simp [hasLink, hl, hne.1]
          · exact jh1 c2 hmem
        · simp only [List.filterMap_cons, hl]
          refine List.Nodup.cons ?_ jh3
          intro hmem
          exact (jh4 l hmem) (List.mem_cons_self l vistos)
        · intro l2 hl2
          simp only [List.filterMap_cons, hl] at hl2
          rcases List.mem_cons.mp hl2 with rfl | hmem
          · exact hne.2
          · intro hv; exact (jh4 l2 hmem) (List.mem_cons_of_mem _ hv)

/-- On an input whose cards all carry pairwise-distinct truthy links not in
the seen set, the dedup is the identity. -/
theorem dedupFirstAux_of_nodup :
    ∀ (cards : List Card) (vistos : List String),
      (∀ c ∈ cards, hasLink c = true) →
      (cards.filterMap Card.link).Nodup →
      (∀ l ∈ cards.filterMap Card.link, l ∉ vistos) →
      dedupFirstAux vistos cards = cards
  | [], _, _, _, _ => by simp [dedupFirstAux]
  | c :: rest, vistos, hall, hnd, hdisj => by
    unfold dedupFirstAux
    cases hl : c.link with
    | none =>
      exact absurd (hall c (List.mem_cons_self c rest)) (by simp [hasLink, hl])
    | some l =>
      have hlt : hasLink c = true := hall c (List.mem_cons_self c rest)
      have hne : ¬(l = "") := by
        simp [hasLink, hl] at hlt; simpa using hlt
      have hlmem : l ∈ (c :: rest).filterMap Card.link := by
        simp [List.filterMap_cons, hl]
      have hnv : l ∉ vistos := hdisj l hlmem
      have hskip : ¬((l = "" || decide (l ∈ vistos)) = true) := by
        simp [hne, hnv]
      simp only [hskip, Bool.false_eq_true, if_false]
      congr 1
      apply dedupFirstAux_of_nodup rest (l :: vistos)
      · intro c2 h2; exact hall c2 (List.mem_cons_of_mem _ h2)
      · have := hnd
        simp only [List.filterMap_cons, hl] at this
        exact this.of_cons
      · intro l2 h2
        have hnd2 := hnd
        simp only [List.filterMap_cons, hl] at hnd2
        intro hv
        rcases List.mem_cons.mp hv with rfl | hvv
        · exact (List.nodup_cons.mp hnd2).1 h2
        · exact (hdisj l2 (by simp [List.filterMap_cons, hl, h2])) hvv

/-- C4: for the configured cap (always ≥ 1, since the GUI passes
`max(1, N)`), the per-term selection equals the first-seen-link-wins dedup
truncated to `first_n`; hence it contains each link at most once (the first
card bearing it wins), contains no candidate lacking a truthy link, has at
most `first_n` entries, is a sublist of the page-ordered cards, and on an
already link-distinct all-linked list it is the identity up to the cap. -/
theorem selecionar_dedup_cap (first_n : ℕ) (cards : List Card) (hn : 1 ≤ first_n) :
    selecionar first_n cards = (dedupFirst cards).take first_n ∧
    (∀ c ∈ selecionar first_n cards, hasLink c = true) ∧
    ((selecionar first_n cards).filterMap Card.link).Nodup ∧
    (selecionar first_n cards).length ≤ first_n ∧
    List.Sublist (selecionar first_n cards) cards ∧
    ((∀ c ∈ cards, hasLink c = true) → (cards.filterMap Card.link).Nodup →
      selecionar first_n cards = cards.take first_n) := by
  have heq : selecionar first_n cards = (dedupFirst cards).take first_n := by
    have h := selAux_eq_take first_n cards [] 0 (by omega)
    simpa [selecionar, dedupFirst] using h
  obtain ⟨h1, h2, h3, _⟩ := dedupFirstAux_props cards []
  have hsub : List.Sublist ((dedupFirst cards).take first_n) (dedupFirst cards) :=
    List.take_sublist _ _
  refine ⟨heq, ?_, ?_, ?_, ?_, ?_⟩
  · intro c hc
    rw [heq] at hc
    exact h1 c (hsub.mem hc)
  · rw [heq]
    exact h3.sublist (hsub.filterMap _)
  · rw [heq]
    exact List.length_take_le _ _
  · rw [heq]
    exact hsub.trans h2
  · intro hall hnd
    rw [heq]
    unfold dedupFirst
    rw [dedupFirstAux_of_nodup cards [] hall hnd (by simp)]

/-- Witness for C4: with cap 2, a card list with a duplicated link keeps the
first bearer and drops the duplicate and the linkless card; an already
link-distinct list passes through up to the cap. -/
theorem selecionar_dedup_cap_witness :
    1 ≤ 2 ∧
    selecionar 2 exCardsC4 =
      [ { link := some "a", titulo := "t1" }, { link := some "b", titulo := "t4" } ] ∧
    selecionar 2 exCardsC4distinct = exCardsC4distinct.take 2 := by
  refine ⟨by decide, ?_, ?_⟩
  · exact ((selecionar_dedup_cap 2 exCardsC4 (by decide)).1).trans (by decide)
  · exact (selecionar_dedup_cap 2 exCardsC4distinct (by decide)).2.2.2.2.2
      (by decide) (by decide)

/-- Python `or` on optional strings selects the first truthy value. -/
theorem pyOrStr_eq (a b : Option String) :
    pyOrStr a b = if strTruthy a then a else b := by
  cases a with
  | none => simp [pyOrStr, strTruthy]
  | some s =>
    by_cases hs : s = "" <;> simp [pyOrStr, strTruthy, hs]

theorem ifNotNone_eq {α : Type} (a b : Option α) :
    ifNotNone a b = if a.isSome then a else b := by
  cases a <;> simp [ifNotNone]

theorem strTruthy_pyOrStr (a b : Option String) :
    strTruthy a ≤ strTruthy (pyOrStr a b) := by
  rw [pyOrStr_eq]
  by_cases h : strTruthy a = true <;> simp [h]

theorem isSome_ifNotNone {α : Type} (a b : Option α) :
    a.isSome ≤ (ifNotNone a b).isSome := by
  cases a <;> simp [ifNotNone]

/-- C6: each merged field (price text, numeric price, rating, review count)
equals the list-page value whenever that value is present (truthy for the
text, non-`None` for the numerics) and the detail-page value only when the
list-page value is absent; consequently the merged record never has fewer
populated fields than its source candidate. -/
theorem merge_precedence (base : CandidateL) (pdp : PdpData) :
    (mergeListDetail base pdp).preco =
      (if strTruthy base.precoTxt then base.precoTxt else pdp.precoTxt) ∧
    (mergeListDetail base pdp).precoNum =
      (if base.precoNum.isSome then base.precoNum else pdp.precoNum) ∧
    (mergeListDetail base pdp).nota =
      (if base.nota.isSome then base.nota else pdp.nota) ∧
    (mergeListDetail base pdp).avaliacoes =
      (if base.avaliacoes.isSome then base.avaliacoes else pdp.avaliacoes) ∧
    strTruthy base.precoTxt ≤ strTruthy (mergeListDetail base pdp).preco ∧
    base.precoNum.isSome ≤ (mergeListDetail base pdp).precoNum.isSome ∧
    base.nota.isSome ≤ (mergeListDetail base pdp).nota.isSome ∧
    base.avaliacoes.isSome ≤ (mergeListDetail base pdp).avaliacoes.isSome ∧
    popCountL base ≤ popCountM (mergeListDetail base pdp) := by
  refine ⟨pyOrStr_eq _ _, ifNotNone_eq _ _, ifNotNone_eq _ _, ifNotNone_eq _ _,
    strTruthy_pyOrStr _ _, isSome_ifNotNone _ _, isSome_ifNotNone _ _,
    isSome_ifNotNone _ _, ?_⟩
  unfold popCountL popCountM
  have h1 := strTruthy_pyOrStr base.precoTxt pdp.precoTxt
  have h2 := isSome_ifNotNone base.precoNum pdp.precoNum
  have h3 := isSome_ifNotNone base.nota pdp.nota
  have h4 := isSome_ifNotNone base.avaliacoes pdp.avaliacoes
  unfold mergeListDetail
  gcongr <;> (split_ifs <;> simp_all [Bool.le_iff_imp])

/-- The run buffer only ever grows: whatever the flag oracle does, the
final buffer extends the buffer the loop started with. -/
theorem runTerms_extends {α : Type} (flag : ℕ → Bool) :
    ∀ (terms : List (TermWork α)) (t : ℕ) (buffer : List α) (cps : List (List α)),
      ∃ extra, (runTerms flag t buffer cps terms).1 = buffer ++ extra
  | [], t, buffer, cps => ⟨[], by simp [runTerms]⟩
  | tw :: rest, t, buffer, cps => by
    by_cases hf : flag t = true
    · exact ⟨[], by simp [runTerms, hf]⟩
    · by_cases hskip : (tw.consulta = "" || !tw.searchOk) = true
      · obtain ⟨extra, hex⟩ := runTerms_extends flag rest (t + 1) buffer cps
        exact ⟨extra, by
          simp only [runTerms, hf, Bool.false_eq_true, if_false, hskip, if_true]
          exact hex⟩
      · obtain ⟨extra, hex⟩ := runTerms_extends flag rest
          (processCands flag (t + 1) tw.cands).2
          (buffer ++ (processCands flag (t + 1) tw.cands).1)
          (cps ++ (if (buffer ++ (processCands flag (t + 1) tw.cands).1).isEmpty
            then [] else [buffer ++ (processCands flag (t + 1) tw.cands).1]))
        refine ⟨(processCands flag (t + 1) tw.cands).1 ++ extra, ?_⟩
        simp only [runTerms, hf, Bool.false_eq_true, if_false, hskip]
        rw [hex, List.append_assoc]

/-- Every checkpoint written during the run is a prefix of the final
buffer (or was already present when the loop started). -/
theorem runTerms_checkpoints {α : Type} (flag : ℕ → Bool) :
    ∀ (terms : List (TermWork α)) (t : ℕ) (buffer : List α) (cps : List (List α)),
      ∀ cp ∈ (runTerms flag t buffer cps terms).2.1,
        cp ∈ cps ∨ ∃ extra, (runTerms flag t buffer cps terms).1 = cp ++ extra
  | [], t, buffer, cps => by
    intro cp hcp
    exact Or.inl (by simpa [runTerms] using hcp)
  | tw :: rest, t, buffer, cps => by
    intro cp hcp
    by_cases hf : flag t = true
    · simp only [runTerms, hf, if_true] at hcp ⊢
      exact Or.inl hcp
    · by_cases hskip : (tw.consulta = "" || !tw.searchOk) = true
      · simp only [runTerms, hf, Bool.false_eq_true, if_false, hskip, if_true] at hcp ⊢
        exact runTerms_checkpoints flag rest (t + 1) buffer cps cp hcp
      · simp only [runTerms, hf, Bool.false_eq_true, if_false, hskip] at hcp ⊢
        rcases runTerms_checkpoints flag rest
            (processCands flag (t + 1) tw.cands).2
            (buffer ++ (processCands flag (t + 1) tw.cands).1)
            (cps ++ (if (buffer ++ (processCands flag (t + 1) tw.cands).1).isEmpty
              then [] else [buffer ++ (processCands flag (t + 1) tw.cands).1])) cp hcp with
          hin | hex
        · rcases List.mem_append.mp hin with hin1 | hin2
          · exact Or.inl hin1
          · right
            have hcpb : cp = buffer ++ (processCands flag (t + 1) tw.cands).1 := by
              by_cases hemp : (buffer ++ (processCands flag (t + 1) tw.cands).1).isEmpty = true
              · simp [hemp] at hin2
              · simpa [hemp] using hin2
            obtain ⟨extra, hex2⟩ := runTerms_extends flag rest
              (processCands flag (t + 1) tw.cands).2
              (buffer ++ (processCands flag (t + 1) tw.cands).1)
              (cps ++ (if (buffer ++ (processCands flag (t + 1) tw.cands).1).isEmpty
                then [] else [buffer ++ (processCands flag (t + 1) tw.cands).1]))
            exact ⟨extra, by rw [hex2, hcpb]⟩
        · exact Or.inr hex

/-- C7: once the cancellation flag reads true at a top-of-loop check, the
term loop performs no further work (the buffer and the checkpoint list are
returned exactly as they stand) and the candidate loop collects nothing
further; and regardless of the oracle, the final buffer extends the buffer
accumulated so far and every checkpoint written is a prefix of the final
buffer — cancellation stops further work but never discards an
already-collected record. -/
theorem cancellation_stops_and_preserves (flag : ℕ → Bool) (t : ℕ)
    (buffer : List ℕ) (cps : List (List ℕ)) (terms : List (TermWork ℕ))
    (cands : List (CandWork ℕ)) :
    (flag t = true →
      (runTerms flag t buffer cps terms).1 = buffer ∧
      (runTerms flag t buffer cps terms).2.1 = cps) ∧
    (flag t = true → (processCands flag t cands).1 = []) ∧
    (∃ extra, (runTerms flag t buffer cps terms).1 = buffer ++ extra) ∧
    (∀ cp ∈ (runTerms flag t buffer cps terms).2.1,
      cp ∈ cps ∨ ∃ extra, (runTerms flag t buffer cps terms).1 = cp ++ extra) := by
  refine ⟨?_, ?_, runTerms_extends flag terms t buffer cps,
    runTerms_checkpoints flag terms t buffer cps⟩
  · intro hf
    cases terms with
    | nil => simp [runTerms]
    | cons tw rest => simp [runTerms, hf]
  · intro hf
    cases cands with
    | nil => simp [processCands]
    | cons c rest => simp [processCands, hf]

/-- Witness for C7: with the flag already set, a pending term with one
successful candidate is not processed — buffer and checkpoints are
untouched and the candidate loop collects nothing. -/
theorem cancellation_stops_and_preserves_witness :
    (fun _ : ℕ => true) 0 = true ∧
    (runTerms (fun _ => true) 0 [1, 2] [[1]]
      [{ consulta := "q", searchOk := true,
         cands := [{ ok := true, payload := 3 }] }]).1 = [1, 2] ∧
    (runTerms (fun _ => true) 0 [1, 2] [[1]]
      [{ consulta := "q", searchOk := true,
         cands := [{ ok := true, payload := 3 }] }]).2.1 = [[1]] ∧
    (processCands (fun _ => true) 0 [({ ok := true, payload := 3 } : CandWork ℕ)]).1 = [] := by
  have h := cancellation_stops_and_preserves (fun _ => true) 0 [1, 2] [[1]]
    [{ consulta := "q", searchOk := true, cands := [{ ok := true, payload := 3 }] }]
    [{ ok := true, payload := 3 }]
  exact ⟨rfl, (h.1 rfl).1, (h.1 rfl).2, h.2.1 rfl⟩

/-- On a visit whose navigation succeeds and whose settled body text trips
the anti-bot heuristic, `open_pdp` emits exactly the navigation events of
the earlier failed attempts followed by one screenshot attempt and one log
entry, and returns `false`. -/
theorem open_pdp_antibot_trace (hasLog : Bool) :
    ∀ (pre : List VisitEnv) (env : VisitEnv) (rest : List VisitEnv),
      (∀ e ∈ pre, e.nav = NavResult.navFail) →
      env.nav ≠ NavResult.navFail →
      looks_like_antibot env = true →
      open_pdp hasLog (pre ++ env :: rest) =
        (false, pre.flatMap (fun _ => failTrace hasLog) ++ antibotTrace hasLog)
  | [], env, rest, _, hnav, hbot => by
    cases hn : env.nav with
    | navFail => exact absurd hn hnav
    | loadOk => simp [open_pdp, hn, hbot, antibotTrace]
    | idleOk => simp [open_pdp, hn, hbot, antibotTrace]
  | e :: pre, env, rest, hpre, hnav, hbot => by
    have he : e.nav = NavResult.navFail := hpre e (List.mem_cons_self e pre)
    have ih := open_pdp_antibot_trace hasLog pre env rest
      (fun x hx => hpre x (List.mem_cons_of_mem _ hx)) hnav hbot
    simp [open_pdp, he, ih, failTrace]

/-- C8: when, after load and settle, the rendered body text contains an
anti-automation hint (case-insensitive substring), `open_pdp` attempts one
diagnostic screenshot, logs the detection, and returns `false` immediately:
its event trace is closed — independent of the remaining attempt budget —
and contains no readiness probe and no reload; and the caller then skips
only that candidate, continuing the loop with the next one. -/
theorem open_pdp_antibot_detected (hasLog : Bool) (pre : List VisitEnv)
    (env : VisitEnv) (rest : List VisitEnv)
    (hpre : ∀ e ∈ pre, e.nav = NavResult.navFail)
    (hnav : env.nav ≠ NavResult.navFail)
    (hbot : looks_like_antibot env = true) :
    open_pdp hasLog (pre ++ env :: rest) =
      (false, pre.flatMap (fun _ => failTrace hasLog) ++ antibotTrace hasLog) ∧
    PdpEvent.probeReady ∉ (open_pdp hasLog (pre ++ env :: rest)).2 ∧
    PdpEvent.reloadPage ∉ (open_pdp hasLog (pre ++ env :: rest)).2 ∧
    (∀ (flag : ℕ → Bool) (t r : ℕ) (rest2 : List (CandWork ℕ)), flag t = false →
      (processCands flag t ({ ok := false, payload := r } :: rest2)).1 =
        (processCands flag (t + 1) rest2).1) := by
  have htr := open_pdp_antibot_trace hasLog pre env rest hpre hnav hbot
  refine ⟨htr, ?_, ?_, ?_⟩
  · rw [htr]
    cases hasLog <;> simp [failTrace, antibotTrace]
  · rw [htr]
    cases hasLog <;> simp [failTrace, antibotTrace]
  · intro flag t r rest2 hf
    simp [processCands, hf]

/-- Witness for C8: a first-attempt visit whose body contains `CAPTCHA`
yields `false` with exactly a navigation, one screenshot and one log. -/
theorem open_pdp_antibot_detected_witness :
    (∀ e ∈ ([] : List VisitEnv), e.nav = NavResult.navFail) ∧
    exEnvC8.nav ≠ NavResult.navFail ∧
    looks_like_antibot exEnvC8 = true ∧
    open_pdp true [exEnvC8] =
      (false, [PdpEvent.navigate, PdpEvent.shotAntibot, PdpEvent.logAntibot]) := by
  refine ⟨by simp, by decide, by decide, ?_⟩
  exact (open_pdp_antibot_detected true [] exEnvC8 [] (by simp) (by decide)
    (by decide)).1.trans (by decide)

/-- The `WithTop ℚᵒᵈ` key orders a descending, missing-last column. -/
theorem notaKey_lt_iff (a b : Option ℚ) : notaKey a < notaKey b ↔ optDescLT a b := by
  cases a <;> cases b <;>
    simp [notaKey, optDescLT, WithTop.coe_lt_coe, WithTop.coe_lt_top]

theorem notaKey_inj (a b : Option ℚ) : notaKey a = notaKey b ↔ a = b := by
  cases a <;> cases b <;> simp [notaKey]

/-- The lexicographic sort key realizes exactly the claim's precedence. -/
theorem sortKey_lt_iff (a b : SortRec) : sortKey a < sortKey b ↔ specLT a b := by
  unfold sortKey specLT
  simp [Prod.Lex.lt_iff, notaKey_lt_iff, notaKey_inj]

theorem sortKey_eq_iff (a b : SortRec) : sortKey a = sortKey b ↔ keyT a = keyT b := by
  unfold sortKey keyT
  simp [Prod.ext_iff, notaKey_inj]

theorem sortKey_le_iff (a b : SortRec) : sortKey a ≤ sortKey b ↔ specLE a b := by
  rw [le_iff_lt_or_eq, sortKey_lt_iff, sortKey_eq_iff, specLE]

theorem insRec_mem (x : SortRec) :
    ∀ (l : List SortRec) (a : SortRec), a ∈ insRec x l ↔ a = x ∨ a ∈ l
  | [], a => by simp [insRec]
  | y :: ys, a => by
    unfold insRec
    by_cases h : sortKey x < sortKey y
    · simp [h]
    · simp [h, insRec_mem x ys a]
      tauto

theorem insRec_pairwise (x : SortRec) :
    ∀ l : List SortRec, List.Pairwise (fun a b => sortKey a ≤ sortKey b) l →
      List.Pairwise (fun a b => sortKey a ≤ sortKey b) (insRec x l)
  | [], _ => by simp [insRec]
  | y :: ys, hp => by
    obtain ⟨hy, hys⟩ := List.pairwise_cons.mp hp
    unfold insRec
    by_cases h : sortKey x < sortKey y
    · rw [if_pos h]
      refine List.pairwise_cons.mpr ⟨?_, hp⟩
      intro z hz
      rcases List.mem_cons.mp hz with rfl | hz2
      · exact le_of_lt h
      · exact (le_of_lt h).trans (hy z hz2)
    · rw [if_neg h]
      refine List.pairwise_cons.mpr ⟨?_, insRec_pairwise x ys hys⟩
      intro z hz
      rcases (insRec_mem x ys z).mp hz with rfl | hz2
      · exact le_of_not_lt h
      · exact hy z hz2

theorem sort_values_sorted_aux :
    ∀ (l acc : List SortRec),
      List.Pairwise (fun a b => sortKey a ≤ sortKey b) acc →
      List.Pairwise (fun a b => sortKey a ≤ sortKey b)
        (l.foldl (fun acc x => insRec x acc) acc)
  | [], _, h => h
  | x :: xs, acc, h =>
    sort_values_sorted_aux xs (insRec x acc) (insRec_pairwise x acc h)

/-- Stable insertion into a sorted list puts the new record after every
record with its key: the key-k records of the result are those of the
input followed (when the new record has key k) by the new record. -/
theorem insRec_filter (x : SortRec) (k : String × String × Option ℚ × Option ℚ) :
    ∀ l : List SortRec, List.Pairwise (fun a b => sortKey a ≤ sortKey b) l →
      (insRec x l).filter (fun r => decide (keyT r = k)) =
        l.filter (fun r => decide (keyT r = k)) ++ (if keyT x = k then [x] else [])
  | [], _ => by by_cases hk : keyT x = k <;> simp [insRec, hk]
  | y :: ys, hp => by
    obtain ⟨hy, hys⟩ := List.pairwise_cons.mp hp
    unfold insRec
    by_cases h : sortKey x < sortKey y
    · rw [if_pos h]
      by_cases hk : keyT x = k
      · have hall : ∀ z ∈ y :: ys, ¬ (keyT z = k) := by
          intro z hz hzk
          have hxz : sortKey x < sortKey z := by
            rcases List.mem_cons.mp hz with rfl | hz2
            · exact h
            · exact lt_of_lt_of_le h (hy z hz2)
          have hzx : sortKey z = sortKey x :=
            (sortKey_eq_iff z x).mpr (hzk.trans hk.symm)
          rw [hzx] at hxz
          exact lt_irrefl _ hxz
        have hnil : (y :: ys).filter (fun r => decide (keyT r = k)) = [] := by
          rw [List.filter_eq_nil_iff]
          intro a ha
          simpa using hall a ha
        simp [List.filter_cons, hk, hnil]
      · simp [List.filter_cons, hk]
    · rw [if_neg h]
      have ih := insRec_filter x k ys hys
      by_cases hyk : keyT y = k <;> simp [List.filter_cons, hyk, ih]

theorem sort_values_filter_aux (k : String × String × Option ℚ × Option ℚ) :
    ∀ (l acc : List SortRec),
      List.Pairwise (fun a b => sortKey a ≤ sortKey b) acc →
      (l.foldl (fun acc x => insRec x acc) acc).filter (fun r => decide (keyT r = k)) =
        acc.filter (fun r => decide (keyT r = k)) ++ l.filter (fun r => decide (keyT r = k))
  | [], acc, h => by simp
  | x :: xs, acc, h => by
    rw [List.foldl_cons,
      sort_values_filter_aux k xs (insRec x acc) (insRec_pairwise x acc h),
      insRec_filter x k acc h]
    by_cases hk : keyT x = k <;> simp [List.filter_cons, hk, List.append_assoc]

theorem insRec_perm (x : SortRec) :
    ∀ l : List SortRec, (insRec x l).Perm (x :: l)
  | [] => List.Perm.refl _
  | y :: ys => by
    unfold insRec
    by_cases h : sortKey x < sortKey y
    · rw [if_pos h]
    · rw [if_neg h]
      exact ((insRec_perm x ys).cons y).trans (List.Perm.swap x y ys)

theorem sort_values_perm_aux :
    ∀ (l acc : List SortRec),
      (l.foldl (fun acc x => insRec x acc) acc).Perm (acc ++ l)
  | [], acc => by simp
  | x :: xs, acc => by
    rw [List.foldl_cons]
    refine (sort_values_perm_aux xs (insRec x acc)).trans ?_
    refine (List.Perm.append_right xs (insRec_perm x acc)).trans ?_
    exact List.perm_middle.symm

/-- C3: the final-report sort orders records by Term ascending, then
sponsorship flag ascending (so `"Não"` precedes `"Sim"`), then rating
descending with missing ratings last, then review count descending with
missing counts last; it is stable — for every key value the subsequence of
records carrying it is exactly the input subsequence, so records agreeing
on all four keys keep their relative input order — and it is a
permutation of its input. -/
theorem sort_values_ranking (l : List SortRec) :
    List.Pairwise specLE (sort_values l) ∧
    (∀ k : String × String × Option ℚ × Option ℚ,
      (sort_values l).filter (fun r => decide (keyT r = k)) =
        l.filter (fun r => decide (keyT r = k))) ∧
    (sort_values l).Perm l ∧
    (("Não" : String) < "Sim") := by
  refine ⟨?_, ?_, ?_, by rw [String.lt_iff_toList_lt]; decide⟩
  · exact (sort_values_sorted_aux l [] (by simp)).imp (fun h => (sortKey_le_iff _ _).mp h)
  · intro k
    simpa using sort_values_filter_aux k l [] (by simp)
  · simpa using sort_values_perm_aux l []

end CurvaA
